import Mathlib

/- Verification of the recursive file search tool in walk.c.

   Strings (NUL-terminated char arrays in C) are modelled as List Char; a
   well-formed C string never contains the NUL character, which appears as an
   explicit hypothesis where restriction to such lists matters.  File sizes and
   the long/int counters are modelled as Int.  The filesystem is modelled as an
   inductive tree of entries; printf output is modelled as a list of emitted
   records. -/

set_option maxHeartbeats 1000000

/-- ASCII lowercasing, modelling C tolower on an unsigned char in the POSIX
locale: only the letters A..Z (code points 65..90) are mapped down by 32. -/
def tolowerC (c : Char) : Char :=
  if 65 ≤ c.toNat ∧ c.toNat ≤ 90 then Char.ofNat (c.toNat + 32) else c

/-- walk.c lines 64-74, strcasecmp_safe: compare two strings, lowercasing each
character; stop at the first mismatch or at the end of either string.  The
C null-pointer guard has no counterpart for Lean lists. -/
def strcasecmp_safe : List Char → List Char → Int
  | [], [] => 0
  | [], c2 :: _ => 0 - ((tolowerC c2).toNat : Int)
  | c1 :: _, [] => ((tolowerC c1).toNat : Int)
  | c1 :: s1, c2 :: s2 =>
    if (tolowerC c1).toNat = (tolowerC c2).toNat then strcasecmp_safe s1 s2
    else ((tolowerC c1).toNat : Int) - ((tolowerC c2).toNat : Int)

/-- The inner while loop of strstr_case (walk.c lines 84-89): does the needle,
compared case-insensitively, lead the given haystack suffix?  True when the
needle is exhausted first. -/
def ciStarts : List Char → List Char → Bool
  | [], _ => true
  | _ :: _, [] => false
  | n :: ns, h :: hs => (tolowerC h == tolowerC n) && ciStarts ns hs

/-- The outer for loop of strstr_case (walk.c lines 80-90): try every suffix of
the haystack in order. -/
def strstr_case_go (need : List Char) : List Char → Option (List Char)
  | [] => none
  | h :: hs => if ciStarts need (h :: hs) then some (h :: hs) else strstr_case_go need hs

/-- walk.c lines 77-93, strstr_case: case-insensitive substring search.  An
empty needle is rejected up front (the !*needle guard on line 78). -/
def strstr_case (hay need : List Char) : Option (List Char) :=
  if need = [] then none else strstr_case_go need hay

/-- Exact-prefix test used to model the C library strstr. -/
def exactStarts : List Char → List Char → Bool
  | [], _ => true
  | _ :: _, [] => false
  | n :: ns, h :: hs => (h == n) && exactStarts ns hs

/-- The C library strstr(hay, need), used on walk.c lines 256 and 295: returns
the first suffix of hay led by need.  Per the C standard an empty needle
matches at the very first position.  Arguments: needle first, then haystack. -/
def strstrLib (need : List Char) : List Char → Option (List Char)
  | [] => if exactStarts need [] then some [] else none
  | h :: hs => if exactStarts need (h :: hs) then some (h :: hs) else strstrLib need hs

/-- The keyword dispatch of walk.c lines 252-259 (and 291-298): case-sensitive
mode uses the C library strstr, case-insensitive mode uses strstr_case; the
caller only looks at whether the result is non-NULL. -/
def keywordFound (cs : Bool) (hay kw : List Char) : Bool :=
  if cs then (strstrLib kw hay).isSome else (strstr_case hay kw).isSome

/-- strrchr(s, c) followed by +1: the part of s after the last occurrence of c,
or none when c does not occur. -/
def strrchrSuffix (c : Char) : List Char → Option (List Char)
  | [] => none
  | x :: xs =>
    match strrchrSuffix c xs with
    | some r => some r
    | none => if x = c then some xs else none

/-- The basename computation of walk.c lines 198-199 (and 288-289): everything
after the last slash, or the whole name when there is none. -/
def basenameOf (fn : List Char) : List Char :=
  (strrchrSuffix '/' fn).getD fn

/-- walk.c lines 194-209, matches_pattern: empty pattern matches everything; a
pattern starting with star-dot matches iff the basename has an extension equal,
case-insensitively, to the rest of the pattern; any other pattern must equal
the basename case-insensitively. -/
def matches_pattern (filename pat : List Char) : Bool :=
  if pat = [] then true
  else if pat.take 2 = ['*', '.'] then
    match strrchrSuffix '.' (basenameOf filename) with
    | none => false
    | some ext => strcasecmp_safe ext (pat.drop 2) == 0
  else strcasecmp_safe (basenameOf filename) pat == 0

/-- The SearchOptions structure of walk.c lines 20-35, keyword_count being the
length of the keyword list and start_dir belonging to main rather than to the
scanning core. -/
structure SearchOptions where
  keywords : List (List Char)
  case_sensitive : Bool
  recursive : Bool
  search_filenames : Bool
  search_content : Bool
  show_line_numbers : Bool
  max_depth : Int
  only_matching_files : Bool
  count_only : Bool
  min_size : Int
  max_size : Int
  file_pattern : List Char
deriving DecidableEq

/-- The SearchStats counters of walk.c lines 44-50 (start_time, pure wall-clock
reporting, is not modelled). -/
structure SearchStats where
  files_searched : Int
  files_matched : Int
  total_matches : Int
  total_size : Int
deriving DecidableEq

/-- One opened file, as the scanner sees it: the size fstat reports and the
successive fgets results (each at most MAX_LINE-1 characters, possibly ending
in a newline). -/
structure FileData where
  size : Int
  lines : List (List Char)
deriving DecidableEq

/-- One printf record emitted by the scanner: a content match line (walk.c
lines 266-270), a filename match line (line 306), or a bare path (line 316). -/
inductive OutputLine where
  | contentMatch (path : List Char) (lineNo : Option Int) (text : List Char)
  | filenameMatch (path : List Char)
  | barePath (path : List Char)
deriving DecidableEq

/-- Result of the content scan loops: the match_in_file flag, the updated
stats, the emitted output, and whether the names-only early return (walk.c
lines 273-278) fired. -/
structure ScanResult where
  matched : Bool
  stats : SearchStats
  out : List OutputLine
  early : Bool
deriving DecidableEq

/-- Result of search_file: its int return value as a Bool, the updated stats,
and the emitted output. -/
structure FileResult where
  matched : Bool
  stats : SearchStats
  out : List OutputLine
deriving DecidableEq

/-- The newline strip of walk.c line 249: truncate at the first newline. -/
def stripNl (line : List Char) : List Char :=
  line.takeWhile (fun c => c != '\n')

/-- The per-line keyword loop of walk.c lines 252-280: each keyword is tested
against the line; a hit bumps total_matches, prints unless count-only or
names-only, and in names-only mode ends the whole file scan at once, bumping
files_matched. -/
def scan_line_kws (filename : List Char) (lineNo : Int) (line : List Char)
    (opts : SearchOptions) : List (List Char) → SearchStats → ScanResult
  | [], stats => ⟨false, stats, [], false⟩
  | kw :: rest, stats =>
    if keywordFound opts.case_sensitive line kw then
      let stats1 := { stats with total_matches := stats.total_matches + 1 }
      let out1 : List OutputLine :=
        if !opts.count_only && !opts.only_matching_files then
          [OutputLine.contentMatch filename
            (if opts.show_line_numbers then some lineNo else none) line]
        else []
      if opts.only_matching_files then
        ⟨true, { stats1 with files_matched := stats1.files_matched + 1 }, out1, true⟩
      else
        let r := scan_line_kws filename lineNo line opts rest stats1
        ⟨true, r.stats, out1 ++ r.out, r.early⟩
    else
      scan_line_kws filename lineNo line opts rest stats

/-- The fgets loop of walk.c lines 245-281: lines are numbered from 1, each is
stripped of its newline and run through the keyword loop; the names-only early
return aborts the loop. -/
def scan_lines (filename : List Char) (opts : SearchOptions) :
    List (List Char) → Int → SearchStats → ScanResult
  | [], _, stats => ⟨false, stats, [], false⟩
  | l :: rest, n, stats =>
    let r := scan_line_kws filename (n + 1) (stripNl l) opts opts.keywords stats
    if r.early then r
    else
      let r2 := scan_lines filename opts rest (n + 1) r.stats
      ⟨r.matched || r2.matched, r2.stats, r.out ++ r2.out, r2.early⟩

/-- The guarded content scan of walk.c lines 244-282: runs only when content
search is enabled. -/
def content_scan (filename : List Char) (f : FileData) (opts : SearchOptions)
    (stats : SearchStats) : ScanResult :=
  if opts.search_content then scan_lines filename opts f.lines 0 stats
  else ⟨false, stats, [], false⟩

/-- The filename keyword loop of walk.c lines 291-310: the first keyword found
in the basename bumps total_matches and files_matched, prints the filename
match line unless count-only, and returns at once. -/
def filename_search (filename : List Char) (opts : SearchOptions) :
    List (List Char) → SearchStats → Option (SearchStats × List OutputLine)
  | [], _ => none
  | kw :: rest, stats =>
    if keywordFound opts.case_sensitive (basenameOf filename) kw then
      some ({ stats with total_matches := stats.total_matches + 1,
                         files_matched := stats.files_matched + 1 },
            if !opts.count_only then [OutputLine.filenameMatch filename] else [])
    else filename_search filename opts rest stats

/-- The size filter of walk.c lines 224-225. -/
def sizeRejected (opts : SearchOptions) (sz : Int) : Bool :=
  decide ((opts.min_size > 0 ∧ sz < opts.min_size) ∨ (opts.max_size ≥ 0 ∧ sz > opts.max_size))

/-- The filename pattern filter of walk.c line 232. -/
def patRejected (opts : SearchOptions) (filename : List Char) : Bool :=
  !(opts.file_pattern == []) && !(matches_pattern filename opts.file_pattern)

/-- walk.c lines 212-321, search_file.  The file argument is none when fopen
fails.  fstat on a freshly opened descriptor is taken to succeed, so the size
is always accumulated into total_size before the filters run. -/
def search_file (filename : List Char) (ofd : Option FileData)
    (opts : SearchOptions) (stats : SearchStats) : FileResult :=
  match ofd with
  | none => ⟨false, stats, []⟩
  | some f =>
    let stats1 := { stats with total_size := stats.total_size + f.size }
    if sizeRejected opts f.size then ⟨false, stats1, []⟩
    else if patRejected opts filename then ⟨false, stats1, []⟩
    else
      let stats2 := { stats1 with files_searched := stats1.files_searched + 1 }
      let r := content_scan filename f opts stats2
      if r.early then ⟨true, r.stats, r.out⟩
      else if opts.search_filenames && !r.matched then
        match filename_search filename opts opts.keywords r.stats with
        | some (s4, o2) => ⟨true, s4, r.out ++ o2⟩
        | none => ⟨false, r.stats, r.out⟩
      else if r.matched then
        ⟨true, { r.stats with files_matched := r.stats.files_matched + 1 },
         r.out ++ (if opts.only_matching_files && !opts.count_only then
                     [OutputLine.barePath filename] else [])⟩
      else ⟨false, r.stats, r.out⟩

/-- MAX_PATH of walk.c line 14. -/
def MAX_PATH : Nat := 4096

/- A directory tree as lstat classifies it (walk.c lines 354-369): each entry
is a regular file (with none for an unopenable one), a directory (with an
openable flag for the opendir on line 333), a symlink, or some other type.
FSEntries is a plain list, kept mutual with FSEntry so that the walker can
recurse structurally. -/
mutual
inductive FSEntry : Type where
  | file (name : List Char) (fd : Option FileData) : FSEntry
  | dir (name : List Char) (openable : Bool) (sub : FSEntries) : FSEntry
  | symlink (name : List Char) : FSEntry
  | other (name : List Char) : FSEntry
inductive FSEntries : Type where
  | nil : FSEntries
  | cons (e : FSEntry) (rest : FSEntries) : FSEntries
end

/-- The d_name field of an entry. -/
def entryName : FSEntry → List Char
  | .file n _ => n
  | .dir n _ _ => n
  | .symlink n => n
  | .other n => n

/-- The readdir loop of walk.c lines 341-370: skip dot and dot-dot and
overlength paths, build the joined child path, recurse into directories when
the recursive flag is set, scan regular files, skip everything else.  At the
recursive call on a subdirectory, the entry checks of search_directory (walk.c
lines 329-336: depth limit, opendir failure) are written inline so that the
recursion stays structural; search_directory below is the same code as a
wrapper, and search_directory_cons restates this branch through it. -/
def walk_entries (path : List Char) (es : FSEntries) (depth : Int)
    (opts : SearchOptions) (stats : SearchStats) : SearchStats × List OutputLine :=
  match es with
  | .nil => (stats, [])
  | .cons e rest =>
    let name := entryName e
    if name = ['.'] ∨ name = ['.', '.'] ∨ path.length + name.length + 2 > MAX_PATH then
      walk_entries path rest depth opts stats
    else
      let fullpath := path ++ '/' :: name
      let step : SearchStats × List OutputLine :=
        match e with
        | .dir _ op sub =>
          if opts.recursive then
            if opts.max_depth ≥ 0 ∧ depth + 1 > opts.max_depth then (stats, [])
            else if !op then (stats, [])
            else walk_entries fullpath sub (depth + 1) opts stats
          else (stats, [])
        | .file _ fd =>
          let r := search_file fullpath fd opts stats
          (r.stats, r.out)
        | .symlink _ => (stats, [])
        | .other _ => (stats, [])
      let w := walk_entries path rest depth opts step.1
      (w.1, step.2 ++ w.2)

/-- walk.c lines 324-373, search_directory: give up above the depth limit or
when the directory cannot be opened, else walk the entries.  The null-path
guard of line 326 has no counterpart for Lean lists. -/
def search_directory (path : List Char) (openable : Bool) (entries : FSEntries)
    (depth : Int) (opts : SearchOptions) (stats : SearchStats) :
    SearchStats × List OutputLine :=
  if opts.max_depth ≥ 0 ∧ depth > opts.max_depth then (stats, [])
  else if !openable then (stats, [])
  else walk_entries path entries depth opts stats

/-- The directory branch of the readdir loop is exactly a recursive
search_directory call, as in walk.c line 362. -/
theorem walk_entries_dir_eq_search_directory (path : List Char) (n : List Char)
    (op : Bool) (sub : FSEntries) (rest : FSEntries) (depth : Int)
    (opts : SearchOptions) (stats : SearchStats)
    (hname : ¬(n = ['.'] ∨ n = ['.', '.'] ∨ path.length + n.length + 2 > MAX_PATH))
    (hrec : opts.recursive = true) :
    walk_entries path (.cons (.dir n op sub) rest) depth opts stats
      = (let s := search_directory (path ++ '/' :: n) op sub (depth + 1) opts stats
         let w := walk_entries path rest depth opts s.1
         (w.1, s.2 ++ w.2)) := by
  simp only [walk_entries, search_directory, entryName, hrec, if_true]
  rw [if_neg hname]

/-- Stats accounting of the per-line keyword loop: files_matched grows by one
exactly when the names-only early exit fires, the early exit implies a match,
and neither files_searched nor total_size is touched. -/
theorem scan_line_kws_stats (fn : List Char) (ln : Int) (line : List Char)
    (opts : SearchOptions) (kws : List (List Char)) :
    ∀ stats : SearchStats,
      (scan_line_kws fn ln line opts kws stats).stats.files_matched
          = stats.files_matched
            + (if (scan_line_kws fn ln line opts kws stats).early then 1 else 0)
        ∧ ((scan_line_kws fn ln line opts kws stats).early = true
            → (scan_line_kws fn ln line opts kws stats).matched = true)
        ∧ (scan_line_kws fn ln line opts kws stats).stats.files_searched
            = stats.files_searched
        ∧ (scan_line_kws fn ln line opts kws stats).stats.total_size
            = stats.total_size := by
  induction kws with
  | nil => intro stats; simp [scan_line_kws]
  | cons kw rest ih =>
    intro stats
    by_cases hf : keywordFound opts.case_sensitive line kw = true
    · by_cases ho : opts.only_matching_files = true
      · simp [scan_line_kws, hf, ho]
      · have h := ih { stats with total_matches := stats.total_matches + 1 }
        simp only [scan_line_kws, hf, if_true, eq_self_iff_true] at *
        simp [ho] at *
        exact ⟨h.1, h.2.2⟩
    · have h := ih stats
      simp only [scan_line_kws, hf] at *
      simp at hf
      simp [hf]
      exact h

/-- Stats accounting of the fgets loop: same bookkeeping as for one line. -/
theorem scan_lines_stats (fn : List Char) (opts : SearchOptions)
    (lines : List (List Char)) :
    ∀ (n : Int) (stats : SearchStats),
      (scan_lines fn opts lines n stats).stats.files_matched
          = stats.files_matched
            + (if (scan_lines fn opts lines n stats).early then 1 else 0)
        ∧ ((scan_lines fn opts lines n stats).early = true
            → (scan_lines fn opts lines n stats).matched = true)
        ∧ (scan_lines fn opts lines n stats).stats.files_searched
            = stats.files_searched
        ∧ (scan_lines fn opts lines n stats).stats.total_size
            = stats.total_size := by
  induction lines with
  | nil => intro n stats; simp [scan_lines]
  | cons l rest ih =>
    intro n stats
    have h1 := scan_line_kws_stats fn (n + 1) (stripNl l) opts opts.keywords stats
    by_cases he : (scan_line_kws fn (n + 1) (stripNl l) opts opts.keywords stats).early = true
    · simp only [scan_lines, he, if_true]
      refine ⟨?_, fun _ => h1.2.1 he, h1.2.2.1, h1.2.2.2⟩
      simpa [he] using h1.1
    · have h2 := ih (n + 1) (scan_line_kws fn (n + 1) (stripNl l) opts opts.keywords stats).stats
      simp only [scan_lines] at *
      simp [he] at *
      refine ⟨?_, ?_, ?_, ?_⟩
      · rw [h2.1, h1.1]
      · intro hearly; simp [h2.2.1 hearly]
      · rw [h2.2.2.1, h1.2.1]
      · rw [h2.2.2.2, h1.2.2]

/-- Stats accounting of the filename keyword loop: a hit bumps total_matches
and files_matched once each and touches nothing else; a miss over the whole
list changes nothing. -/
theorem filename_search_stats (fn : List Char) (opts : SearchOptions)
    (kws : List (List Char)) :
    ∀ (stats : SearchStats) (s : SearchStats) (o : List OutputLine),
      filename_search fn opts kws stats = some (s, o)
        → s.files_matched = stats.files_matched + 1
          ∧ s.total_matches = stats.total_matches + 1
          ∧ s.files_searched = stats.files_searched
          ∧ s.total_size = stats.total_size := by
  induction kws with
  | nil => intro stats s o h; simp [filename_search] at h
  | cons kw rest ih =>
    intro stats s o h
    by_cases hf : keywordFound opts.case_sensitive (basenameOf fn) kw = true
    · simp [filename_search, hf] at h
      obtain ⟨hs, _⟩ := h
      subst hs
      simp
    · simp only [filename_search] at h
      rw [if_neg hf] at h
      exact ih stats s o h

/-- Stats accounting of the guarded content scan. -/
theorem content_scan_stats (fn : List Char) (f : FileData) (opts : SearchOptions)
    (stats : SearchStats) :
    (content_scan fn f opts stats).stats.files_matched
        = stats.files_matched
          + (if (content_scan fn f opts stats).early then 1 else 0)
      ∧ ((content_scan fn f opts stats).early = true
          → (content_scan fn f opts stats).matched = true)
      ∧ (content_scan fn f opts stats).stats.files_searched = stats.files_searched
      ∧ (content_scan fn f opts stats).stats.total_size = stats.total_size := by
  by_cases hsc : opts.search_content = true
  · simp only [content_scan, hsc, if_true]
    exact scan_lines_stats fn opts f.lines 0 stats
  · simp [content_scan, hsc]

/-- C1: one invocation of search_file bumps files_matched at most once — the
final counter is the initial one plus exactly one when the call reports a
match (via whichever of the three return paths fired: the names-only early
exit, the filename match, or the generic content match) and plus zero
otherwise; concretely, a file whose content and basename both contain the
keyword bumps files_matched by exactly 1. -/
theorem search_file_files_matched_at_most_once :
    (∀ (fn : List Char) (ofd : Option FileData) (opts : SearchOptions)
        (stats : SearchStats),
        (search_file fn ofd opts stats).stats.files_matched
          = stats.files_matched
            + (if (search_file fn ofd opts stats).matched then 1 else 0))
    ∧ (search_file "dir/foo.txt".data (some ⟨9, ["hello foo".data]⟩)
          ⟨["foo".data], true, true, true, true, true, -1, false, false, 0, -1, []⟩
          ⟨0, 0, 0, 0⟩).stats.files_matched = 1 := by
  constructor
  · intro fn ofd opts stats
    match ofd with
    | none => simp [search_file]
    | some f =>
      simp only [search_file]
      by_cases hs : sizeRejected opts f.size = true
      · simp [hs]
      · simp only [hs, Bool.false_eq_true, if_false]
        by_cases hp : patRejected opts fn = true
        · simp [hp]
        · simp only [hp, Bool.false_eq_true, if_false]
          have hc := content_scan_stats fn f opts
            { stats with
                total_size := stats.total_size + f.size,
                files_searched := stats.files_searched + 1 }
          set r := content_scan fn f opts
            { stats with
                total_size := stats.total_size + f.size,
                files_searched := stats.files_searched + 1 } with hrdef
          by_cases he : r.early = true
          · simp only [he, if_true]
            simp [hc.1, he]
          · simp only [he, Bool.false_eq_true, if_false]
            by_cases hfn : (opts.search_filenames && !r.matched) = true
            · simp only [hfn, if_true]
              rcases h4 : filename_search fn opts opts.keywords r.stats with _ | ⟨s4, o2⟩
              · simp [hc.1, he]
              · have := filename_search_stats fn opts opts.keywords r.stats s4 o2 h4
                simp [this.1, hc.1, he]
            · simp only [hfn, Bool.false_eq_true, if_false]
              by_cases hm : r.matched = true
              · simp [hm, hc.1, he]
              · simp [hm, hc.1, he]
  · decide

/-- Char.toNat determines the character. -/
theorem char_toNat_inj {a b : Char} (h : a.toNat = b.toNat) : a = b :=
  Char.eq_of_val_eq (UInt32.ext h)

/-- Code point of the lowered character. -/
theorem tolowerC_toNat (c : Char) :
    (tolowerC c).toNat
      = if 65 ≤ c.toNat ∧ c.toNat ≤ 90 then c.toNat + 32 else c.toNat := by
  unfold tolowerC
  split
  · next h =>
    unfold Char.ofNat
    rw [dif_pos]
    · rfl
    · left; omega
  · rfl

/-- Lowering never creates or destroys the NUL character. -/
theorem tolowerC_toNat_eq_zero (c : Char) : (tolowerC c).toNat = 0 ↔ c.toNat = 0 := by
  rw [tolowerC_toNat]
  split <;> omega

/-- strcasecmp_safe returns zero exactly on strings whose lowerings agree,
provided neither contains NUL (a C string never does). -/
theorem strcasecmp_safe_eq_zero (a : List Char) :
    ∀ b : List Char, (∀ c ∈ a, c.toNat ≠ 0) → (∀ c ∈ b, c.toNat ≠ 0) →
      (strcasecmp_safe a b = 0 ↔ a.map tolowerC = b.map tolowerC) := by
  induction a with
  | nil =>
    intro b _ hb
    cases b with
    | nil => simp [strcasecmp_safe]
    | cons c2 bs =>
      have h0 : c2.toNat ≠ 0 := hb c2 (by simp)
      have h1 : (tolowerC c2).toNat ≠ 0 := fun h => h0 ((tolowerC_toNat_eq_zero c2).mp h)
      simp [strcasecmp_safe]
      omega
  | cons c1 as ih =>
    intro b ha hb
    cases b with
    | nil =>
      have h0 : c1.toNat ≠ 0 := ha c1 (by simp)
      have h1 : (tolowerC c1).toNat ≠ 0 := fun h => h0 ((tolowerC_toNat_eq_zero c1).mp h)
      simp [strcasecmp_safe]
      omega
    | cons c2 bs =>
      by_cases heq : (tolowerC c1).toNat = (tolowerC c2).toNat
      · have hlow : tolowerC c1 = tolowerC c2 := char_toNat_inj heq
        have ih2 := ih bs (fun c hc => ha c (by simp [hc])) (fun c hc => hb c (by simp [hc]))
        simp [strcasecmp_safe, heq, hlow, ih2]
      · have hlow : tolowerC c1 ≠ tolowerC c2 := fun h => heq (by rw [h])
        simp [strcasecmp_safe, heq, hlow]
        omega

/-- The suffix strrchr reports consists of characters of the original list. -/
theorem strrchrSuffix_subset (c : Char) (l : List Char) :
    ∀ r, strrchrSuffix c l = some r → ∀ x ∈ r, x ∈ l := by
  induction l with
  | nil => intro r h; simp [strrchrSuffix] at h
  | cons y ys ih =>
    intro r h x hx
    simp only [strrchrSuffix] at h
    rcases h2 : strrchrSuffix c ys with _ | r2
    · rw [h2] at h
      by_cases hy : y = c
      · simp [hy] at h
        subst h
        simp [hx]
      · simp [hy] at h
    · rw [h2] at h
      simp at h
      subst h
      simp [ih r2 h2 x hx]

/-- The basename consists of characters of the path. -/
theorem basenameOf_subset (fn : List Char) : ∀ x ∈ basenameOf fn, x ∈ fn := by
  unfold basenameOf
  rcases h : strrchrSuffix '/' fn with _ | r
  · simp
  · simpa using strrchrSuffix_subset '/' fn r h

/-- C3: the empty pattern matches every filename; a star-dot pattern matches
exactly when the basename (the part after the last slash, or the whole name)
has an extension (the part after its last dot) equal to the pattern tail up to
ASCII case; a basename without a dot never matches a star-dot pattern; any
other pattern matches exactly when it equals the basename up to ASCII case.
NUL-freeness hypotheses record that the lists stand for C strings. -/
theorem matches_pattern_spec :
    (matches_pattern "src/main.C".data "*.c".data = true)
    ∧ (∀ fn : List Char, matches_pattern fn [] = true)
    ∧ (∀ fn ext : List Char, (∀ c ∈ fn, c.toNat ≠ 0) → (∀ c ∈ ext, c.toNat ≠ 0) →
        (matches_pattern fn ('*' :: '.' :: ext) = true
          ↔ ∃ e, strrchrSuffix '.' (basenameOf fn) = some e
              ∧ e.map tolowerC = ext.map tolowerC))
    ∧ (∀ fn ext : List Char, strrchrSuffix '.' (basenameOf fn) = none
        → matches_pattern fn ('*' :: '.' :: ext) = false)
    ∧ (∀ fn pat : List Char, (∀ c ∈ fn, c.toNat ≠ 0) → (∀ c ∈ pat, c.toNat ≠ 0) →
        pat ≠ [] → pat.take 2 ≠ ['*', '.'] →
        (matches_pattern fn pat = true
          ↔ (basenameOf fn).map tolowerC = pat.map tolowerC)) := by
  refine ⟨by decide, fun fn => by simp [matches_pattern], ?_, ?_, ?_⟩
  · intro fn ext hfn hext
    have hb := basenameOf_subset fn
    simp only [matches_pattern, List.take, reduceCtorEq, if_false]
    rcases h : strrchrSuffix '.' (basenameOf fn) with _ | e
    · simp
    · have he : ∀ c ∈ e, c.toNat ≠ 0 :=
        fun c hc => hfn c (hb c (strrchrSuffix_subset '.' (basenameOf fn) e h c hc))
      have hiff := strcasecmp_safe_eq_zero e ext he hext
      simp [hiff]
  · intro fn ext h
    simp [matches_pattern, h]
  · intro fn pat hfn hpat hne htake
    have hbn : ∀ c ∈ basenameOf fn, c.toNat ≠ 0 := fun c hc => hfn c (basenameOf_subset fn c hc)
    have hiff := strcasecmp_safe_eq_zero (basenameOf fn) pat hbn hpat
    simp [matches_pattern, hne, htake, hiff]

/-- Witness for C3, instantiating the non-extension branch at a concrete
filename and pattern. -/
theorem matches_pattern_spec_witness :
    (∀ c ∈ "a/Readme".data, c.toNat ≠ 0)
      ∧ matches_pattern "a/Readme".data "README".data = true :=
  ⟨by decide,
   (matches_pattern_spec.2.2.2.2 "a/Readme".data "README".data
      (by decide) (by decide) (by decide) (by decide)).mpr (by decide)⟩

/-- C2 (code bug): in names-only mode the first content match does end the
scan at once — on a five-matching-line file total_matches and files_matched
each grow by exactly 1 and search_file returns true — but the call emits no
output at all: the bare-path print of walk.c lines 315-317 sits after the
early return of lines 273-278 and can never be reached, contradicting the
claimed single path line (and the help text of the -l option). -/
theorem names_only_early_exit_eval :
    search_file "notes.txt".data
        (some ⟨20, ["foo a".data, "foo b".data, "foo c".data, "foo d".data, "foo e".data]⟩)
        ⟨["foo".data], true, true, true, true, true, -1, true, false, 0, -1, []⟩
        ⟨0, 0, 0, 0⟩
      = ⟨true, ⟨1, 1, 1, 20⟩, []⟩ := by
  decide

/-- C6 counterexample: with the empty keyword in case-sensitive mode, the line
matcher delegates to the C library strstr, for which an empty needle matches at
the first position — so the claimed no-match behaviour fails on any line. -/
theorem empty_keyword_case_sensitive_matches :
    keywordFound true "any line".data [] = true := by decide

/-- C6 amended: an empty keyword never matches in case-insensitive mode, where
strstr_case rejects the empty needle up front; in case-sensitive mode the C
library strstr makes the empty keyword match every line.  Termination on
arbitrary inputs holds by construction: the embedded matchers are total
structurally recursive functions. -/
theorem empty_keyword_amended (line : List Char) :
    keywordFound false line [] = false
      ∧ keywordFound true line [] = true
      ∧ strstr_case line [] = none := by
  refine ⟨by simp [keywordFound, strstr_case], ?_, by simp [strstr_case]⟩
  cases line with
  | nil => simp [keywordFound, strstrLib, exactStarts]
  | cons h t => simp [keywordFound, strstrLib, exactStarts]

/-- C8: a file that cannot be opened is a silent skip — search_file returns
false, every stats counter is left exactly as it was, and nothing is printed. -/
theorem unopenable_file_no_effect (fn : List Char) (opts : SearchOptions)
    (stats : SearchStats) :
    search_file fn none opts stats = ⟨false, stats, []⟩ := by
  simp [search_file]

/-- C4: once a file is open its size goes into total_size no matter what the
size and pattern filters later decide, while files_searched grows only when
both filters pass; concretely a 500-byte file under min_size 1000 contributes
its size to total_size but not to files_searched. -/
theorem total_size_vs_files_searched :
    (∀ (fn : List Char) (f : FileData) (opts : SearchOptions) (stats : SearchStats),
        (search_file fn (some f) opts stats).stats.total_size
            = stats.total_size + f.size
          ∧ (search_file fn (some f) opts stats).stats.files_searched
              = stats.files_searched
                + (if sizeRejected opts f.size || patRejected opts fn then 0 else 1))
    ∧ (search_file "a.bin".data (some ⟨500, []⟩)
          ⟨["foo".data], true, true, true, true, true, -1, false, false, 1000, -1, []⟩
          ⟨0, 0, 0, 0⟩).stats = ⟨0, 0, 0, 500⟩ := by
  constructor
  · intro fn f opts stats
    simp only [search_file]
    by_cases hs : sizeRejected opts f.size = true
    · simp [hs]
    · simp only [hs, Bool.false_eq_true, if_false]
      by_cases hp : patRejected opts fn = true
      · simp [hs, hp]
      · simp only [hp, Bool.false_eq_true, if_false]
        have hc := content_scan_stats fn f opts
          { stats with
              total_size := stats.total_size + f.size,
              files_searched := stats.files_searched + 1 }
        set r := content_scan fn f opts
          { stats with
              total_size := stats.total_size + f.size,
              files_searched := stats.files_searched + 1 } with hrdef
        by_cases he : r.early = true
        · simp [he, hs, hp, hc.2.2.1, hc.2.2.2]
        · simp only [he, Bool.false_eq_true, if_false]
          by_cases hfn : (opts.search_filenames && !r.matched) = true
          · simp only [hfn, if_true]
            rcases h4 : filename_search fn opts opts.keywords r.stats with _ | ⟨s4, o2⟩
            · simp [hs, hp, hc.2.2.1, hc.2.2.2]
            · have h5 := filename_search_stats fn opts opts.keywords r.stats s4 o2 h4
              simp [hs, hp, h5.2.2.1, h5.2.2.2, hc.2.2.1, hc.2.2.2]
          · simp only [hfn, Bool.false_eq_true, if_false]
            by_cases hm : r.matched = true
            · simp [hm, hs, hp, hc.2.2.1, hc.2.2.2]
            · simp [hm, hs, hp, hc.2.2.1, hc.2.2.2]
  · decide

/-- Replace the contents of every immediate subdirectory by an empty listing;
used to state that a depth-limited walk never looks inside subdirectories. -/
def pruneSubdirs : FSEntries → FSEntries
  | .nil => .nil
  | .cons (.dir n op _) rest => .cons (.dir n op .nil) (pruneSubdirs rest)
  | .cons e rest => .cons e (pruneSubdirs rest)

/-- With max_depth zero, a walk at depth zero never depends on what is inside
any subdirectory: the recursive call at depth one is cut off by the depth
check before the subdirectory listing is read. -/
theorem walk_entries_prune (opts : SearchOptions) (h : opts.max_depth = 0) :
    ∀ (es : FSEntries) (path : List Char) (stats : SearchStats),
      walk_entries path es 0 opts stats = walk_entries path (pruneSubdirs es) 0 opts stats
  | .nil, path, stats => by simp [pruneSubdirs]
  | .cons e rest, path, stats => by
    have ih := walk_entries_prune opts h rest
    cases e with
    | file n fd =>
      simp only [pruneSubdirs, walk_entries, entryName]
      by_cases hc : (n = ['.'] ∨ n = ['.', '.'] ∨ path.length + n.length + 2 > MAX_PATH)
      · simp only [hc, if_true]
        exact ih path stats
      · simp only [hc, if_false]
        rw [ih]
    | dir n op sub =>
      simp only [pruneSubdirs, walk_entries, entryName]
      by_cases hc : (n = ['.'] ∨ n = ['.', '.'] ∨ path.length + n.length + 2 > MAX_PATH)
      · simp only [hc, if_true]
        exact ih path stats
      · simp only [hc, if_false, h]
        norm_num
        rw [ih]
    | symlink n =>
      simp only [pruneSubdirs, walk_entries, entryName]
      by_cases hc : (n = ['.'] ∨ n = ['.', '.'] ∨ path.length + n.length + 2 > MAX_PATH)
      · simp only [hc, if_true]
        exact ih path stats
      · simp only [hc, if_false]
        rw [ih]
    | other n =>
      simp only [pruneSubdirs, walk_entries, entryName]
      by_cases hc : (n = ['.'] ∨ n = ['.', '.'] ∨ path.length + n.length + 2 > MAX_PATH)
      · simp only [hc, if_true]
        exact ih path stats
      · simp only [hc, if_false]
        rw [ih]

/-- Options used by the concrete depth-limit scenario: keyword foo, defaults,
max_depth zero. -/
def optsD0 : SearchOptions :=
  ⟨["foo".data], true, true, true, true, true, 0, false, false, 0, -1, []⟩

/-- Concrete tree for the depth-limit scenario: one matching file at depth
zero and one matching file inside a subdirectory. -/
def treeD0 : FSEntries :=
  .cons (.file "a.txt".data (some ⟨3, ["foo".data]⟩))
    (.cons (.dir "sub".data true
        (.cons (.file "b.txt".data (some ⟨3, ["foo".data]⟩)) .nil))
      .nil)

/-- C5: a search_directory call at a depth beyond a configured non-negative
max_depth returns with nothing enumerated; with max_depth zero the walk result
never depends on the contents of subdirectories (they are cut off at the depth
check before being read), while files at depth zero are still scanned — in the
concrete tree only the depth-zero file is searched and reported. -/
theorem depth_limit_spec :
    (∀ (path : List Char) (op : Bool) (entries : FSEntries) (depth : Int)
        (opts : SearchOptions) (stats : SearchStats),
        opts.max_depth ≥ 0 → depth > opts.max_depth →
        search_directory path op entries depth opts stats = (stats, []))
    ∧ (∀ (path : List Char) (op : Bool) (entries : FSEntries)
        (opts : SearchOptions) (stats : SearchStats),
        opts.max_depth = 0 →
        search_directory path op entries 0 opts stats
          = search_directory path op (pruneSubdirs entries) 0 opts stats)
    ∧ search_directory ".".data true treeD0 0 optsD0 ⟨0, 0, 0, 0⟩
        = (⟨1, 1, 1, 3⟩, [OutputLine.contentMatch "./a.txt".data (some 1) "foo".data]) := by
  refine ⟨?_, ?_, by decide⟩
  · intro path op entries depth opts stats h1 h2
    simp [search_directory, h1, h2]
  · intro path op entries opts stats h
    simp only [search_directory]
    rw [walk_entries_prune opts h]

/-- Witness for C5: the depth-exceeded branch at concrete arguments. -/
theorem depth_limit_spec_witness :
    optsD0.max_depth ≥ 0 ∧ (1 : Int) > optsD0.max_depth
      ∧ search_directory "x".data true treeD0 1 optsD0 ⟨0, 0, 0, 0⟩ = (⟨0, 0, 0, 0⟩, []) :=
  ⟨by decide, by decide,
   depth_limit_spec.1 "x".data true treeD0 1 optsD0 ⟨0, 0, 0, 0⟩ (by decide) (by decide)⟩

/-- The filename keyword loop stops at the first keyword found in the
basename, bumping total_matches and files_matched once each; keywords before
it must all miss and keywords after it are never examined. -/
theorem filename_search_first (fn : List Char) (opts : SearchOptions) :
    ∀ (pre : List (List Char)) (kw : List Char) (post : List (List Char))
      (stats : SearchStats),
      (∀ k ∈ pre, keywordFound opts.case_sensitive (basenameOf fn) k = false) →
      keywordFound opts.case_sensitive (basenameOf fn) kw = true →
      filename_search fn opts (pre ++ kw :: post) stats
        = some ({ stats with total_matches := stats.total_matches + 1,
                             files_matched := stats.files_matched + 1 },
                if !opts.count_only then [OutputLine.filenameMatch fn] else []) := by
  intro pre
  induction pre with
  | nil =>
    intro kw post stats _ hkw
    simp [filename_search, hkw]
  | cons k0 pre ih =>
    intro kw post stats hpre hkw
    have h0 : keywordFound opts.case_sensitive (basenameOf fn) k0 = false :=
      hpre k0 (by simp)
    simp only [List.cons_append, filename_search, h0, Bool.false_eq_true, if_false]
    exact ih kw post stats (fun k hk => hpre k (by simp [hk])) hkw

/-- C7: when filename search is enabled and the content scan produced no match
and no early exit, the first keyword occurring in the basename makes
search_file bump total_matches and files_matched once each, print the
distinguishable filename-match record exactly when count-only is off (the
names-only flag plays no role here), and return true with the keywords after
the hit never tested. -/
theorem filename_match_spec (fn : List Char) (f : FileData) (opts : SearchOptions)
    (stats s3 : SearchStats) (o1 : List OutputLine)
    (pre : List (List Char)) (kw : List Char) (post : List (List Char))
    (hsf : opts.search_filenames = true)
    (hs : sizeRejected opts f.size = false)
    (hp : patRejected opts fn = false)
    (hcs : content_scan fn f opts
        { stats with total_size := stats.total_size + f.size,
                     files_searched := stats.files_searched + 1 }
      = ⟨false, s3, o1, false⟩)
    (hkws : opts.keywords = pre ++ kw :: post)
    (hpre : ∀ k ∈ pre, keywordFound opts.case_sensitive (basenameOf fn) k = false)
    (hkw : keywordFound opts.case_sensitive (basenameOf fn) kw = true) :
    search_file fn (some f) opts stats
      = ⟨true, { s3 with total_matches := s3.total_matches + 1,
                         files_matched := s3.files_matched + 1 },
         o1 ++ (if !opts.count_only then [OutputLine.filenameMatch fn] else [])⟩ := by
  have hfs := filename_search_first fn opts pre kw post s3 hpre hkw
  simp only [search_file, hcs, hsf, hkws, hfs]
  simp [hs, hp]

/-- Witness for C7: an empty file named foo.txt, keywords z then foo; the
second keyword hits the basename, the first misses, and a later keyword would
be irrelevant. -/
theorem filename_match_spec_witness :
    keywordFound true (basenameOf "foo.txt".data) "foo".data = true
      ∧ search_file "foo.txt".data (some ⟨10, []⟩)
          ⟨["z".data, "foo".data], true, true, true, true, true, -1, false, false, 0, -1, []⟩
          ⟨0, 0, 0, 0⟩
        = ⟨true, ⟨1, 1, 1, 10⟩, [OutputLine.filenameMatch "foo.txt".data]⟩ :=
  ⟨by decide,
   by
    rw [filename_match_spec "foo.txt".data ⟨10, []⟩
        ⟨["z".data, "foo".data], true, true, true, true, true, -1, false, false, 0, -1, []⟩
        ⟨0, 0, 0, 0⟩ ⟨1, 0, 0, 10⟩ [] ["z".data] "foo".data []
        (by decide) (by decide) (by decide) (by decide) (by decide) (by decide) (by decide)]
    decide⟩

/-- C9: entry classification follows the lstat type of the entry itself: a
symlink entry contributes nothing to the walk (so a symlinked directory,
even one pointing at an ancestor, is never entered — the embedded walker is a
total function, so no recursion on it can diverge), other special types
likewise contribute nothing, a directory entry is recursed exactly when the
recursive flag is set, and a regular file entry is handed to search_file. -/
theorem walker_classification_spec :
    (∀ (path n : List Char) (rest : FSEntries) (depth : Int)
        (opts : SearchOptions) (stats : SearchStats),
        walk_entries path (.cons (.symlink n) rest) depth opts stats
          = walk_entries path rest depth opts stats)
    ∧ (∀ (path n : List Char) (rest : FSEntries) (depth : Int)
        (opts : SearchOptions) (stats : SearchStats),
        walk_entries path (.cons (.other n) rest) depth opts stats
          = walk_entries path rest depth opts stats)
    ∧ (∀ (path n : List Char) (op : Bool) (sub rest : FSEntries) (depth : Int)
        (opts : SearchOptions) (stats : SearchStats),
        opts.recursive = false →
        walk_entries path (.cons (.dir n op sub) rest) depth opts stats
          = walk_entries path rest depth opts stats)
    ∧ (∀ (path n : List Char) (op : Bool) (sub rest : FSEntries) (depth : Int)
        (opts : SearchOptions) (stats : SearchStats),
        ¬(n = ['.'] ∨ n = ['.', '.'] ∨ path.length + n.length + 2 > MAX_PATH) →
        opts.recursive = true →
        walk_entries path (.cons (.dir n op sub) rest) depth opts stats
          = (let s := search_directory (path ++ '/' :: n) op sub (depth + 1) opts stats
             let w := walk_entries path rest depth opts s.1
             (w.1, s.2 ++ w.2)))
    ∧ (∀ (path n : List Char) (fd : Option FileData) (rest : FSEntries) (depth : Int)
        (opts : SearchOptions) (stats : SearchStats),
        ¬(n = ['.'] ∨ n = ['.', '.'] ∨ path.length + n.length + 2 > MAX_PATH) →
        walk_entries path (.cons (.file n fd) rest) depth opts stats
          = (let r := search_file (path ++ '/' :: n) fd opts stats
             let w := walk_entries path rest depth opts r.stats
             (w.1, r.out ++ w.2))) := by
  refine ⟨?_, ?_, ?_, ?_, ?_⟩
  · intro path n rest depth opts stats
    simp only [walk_entries, entryName]
    by_cases hc : (n = ['.'] ∨ n = ['.', '.'] ∨ path.length + n.length + 2 > MAX_PATH)
    · simp [hc]
    · simp [hc]
  · intro path n rest depth opts stats
    simp only [walk_entries, entryName]
    by_cases hc : (n = ['.'] ∨ n = ['.', '.'] ∨ path.length + n.length + 2 > MAX_PATH)
    · simp [hc]
    · simp [hc]
  · intro path n op sub rest depth opts stats hrec
    simp only [walk_entries, entryName]
    by_cases hc : (n = ['.'] ∨ n = ['.', '.'] ∨ path.length + n.length + 2 > MAX_PATH)
    · simp [hc]
    · simp [hc, hrec]
  · intro path n op sub rest depth opts stats hname hrec
    exact walk_entries_dir_eq_search_directory path n op sub rest depth opts stats hname hrec
  · intro path n fd rest depth opts stats hname
    simp only [walk_entries, entryName]
    rw [if_neg hname]

/-- Witness for C9: the file-dispatch branch on a one-entry listing. -/
theorem walker_classification_spec_witness :
    ¬("f.txt".data = ['.'] ∨ "f.txt".data = ['.', '.']
        ∨ (".".data).length + ("f.txt".data).length + 2 > MAX_PATH)
      ∧ walk_entries ".".data (.cons (.file "f.txt".data (some ⟨3, ["foo".data]⟩)) .nil) 0
          ⟨["foo".data], true, true, true, true, true, -1, false, false, 0, -1, []⟩
          ⟨0, 0, 0, 0⟩
        = (let r := search_file (".".data ++ '/' :: "f.txt".data) (some ⟨3, ["foo".data]⟩)
               ⟨["foo".data], true, true, true, true, true, -1, false, false, 0, -1, []⟩
               ⟨0, 0, 0, 0⟩
           let w := walk_entries ".".data .nil 0
               ⟨["foo".data], true, true, true, true, true, -1, false, false, 0, -1, []⟩
               r.stats
           (w.1, r.out ++ w.2)) :=
  ⟨by decide,
   walker_classification_spec.2.2.2.2 ".".data "f.txt".data (some ⟨3, ["foo".data]⟩)
     .nil 0 ⟨["foo".data], true, true, true, true, true, -1, false, false, 0, -1, []⟩
     ⟨0, 0, 0, 0⟩ (by decide)⟩

/-- C10: outside names-only mode the per-line keyword loop treats every
configured keyword independently: a line occurrence of each of k keywords
bumps total_matches by exactly k, and exactly k output records are emitted
when count-only is off (none when it is on); the loop never fires the early
exit. -/
theorem per_line_keyword_counting (fn : List Char) (ln : Int) (line : List Char)
    (opts : SearchOptions) (kws : List (List Char)) (stats : SearchStats)
    (ho : opts.only_matching_files = false) :
    scan_line_kws fn ln line opts kws stats
      = ⟨kws.any (fun kw => keywordFound opts.case_sensitive line kw),
         { stats with total_matches := stats.total_matches
             + (kws.countP (fun kw => keywordFound opts.case_sensitive line kw) : Int) },
         if opts.count_only then []
         else List.replicate
                (kws.countP (fun kw => keywordFound opts.case_sensitive line kw))
                (OutputLine.contentMatch fn
                  (if opts.show_line_numbers then some ln else none) line),
         false⟩ := by
  induction kws generalizing stats with
  | nil => simp [scan_line_kws]
  | cons kw rest ih =>
    by_cases hf : keywordFound opts.case_sensitive line kw = true
    · simp only [scan_line_kws, hf, if_true, ho]
      rw [ih]
      by_cases hco : opts.count_only = true
      · simp [List.any_cons, List.countP_cons, hf, hco, ScanResult.mk.injEq,
          SearchStats.mk.injEq]
        omega
      · simp only [Bool.not_eq_true] at hco
        simp [List.any_cons, List.countP_cons, hf, hco, List.replicate_succ,
          ScanResult.mk.injEq, SearchStats.mk.injEq]
        omega
    · simp only [scan_line_kws, hf]
      simp only [Bool.not_eq_true] at hf
      simp [List.any_cons, List.countP_cons, hf]
      exact ih stats

/-- Witness for C10: a line containing two of three configured keywords. -/
theorem per_line_keyword_counting_witness :
    (⟨["a".data], true, true, true, true, true, -1, false, false, 0, -1,
        ([] : List Char)⟩ : SearchOptions).only_matching_files = false
      ∧ scan_line_kws "a.txt".data 1 "foo bar".data
          ⟨["a".data], true, true, true, true, true, -1, false, false, 0, -1, []⟩
          ["foo".data, "zap".data, "bar".data] ⟨0, 0, 0, 0⟩
        = ⟨true, ⟨0, 0, 2, 0⟩,
           [OutputLine.contentMatch "a.txt".data (some 1) "foo bar".data,
            OutputLine.contentMatch "a.txt".data (some 1) "foo bar".data],
           false⟩ :=
  ⟨by decide,
   by
    rw [per_line_keyword_counting "a.txt".data 1 "foo bar".data
      ⟨["a".data], true, true, true, true, true, -1, false, false, 0, -1, []⟩
      ["foo".data, "zap".data, "bar".data] ⟨0, 0, 0, 0⟩ (by decide)]
    decide⟩

example : keywordFound true "Hello World".data "world".data = false := by decide

example : keywordFound false "Hello World".data "WORLD".data = true := by decide

example : matches_pattern "src/main.C".data "*.c".data = true := by decide

example : matches_pattern "srcmainC".data "*.c".data = false := by decide

example : matches_pattern "a/b/Makefile".data "makefile".data = true := by decide

example :
    search_file "a.txt".data (some ⟨7, ["foo".data, "bar".data]⟩)
      ⟨["foo".data], true, true, true, true, true, -1, false, false, 0, -1, []⟩
      ⟨0, 0, 0, 0⟩
      = ⟨true, ⟨1, 1, 1, 7⟩, [OutputLine.contentMatch "a.txt".data (some 1) "foo".data]⟩ := by
  decide
